import Mathlib

/-!
Shallow embedding of the cronenberg duplicate-file detector
(src/cronenberg: dups.py, recorder.py, reports.py, scanner.py,
filescanner.py) and proofs about its matching engine.

Machine model: the filesystem is a finite association of absolute path
strings to entries carrying a regular-file flag, a readability flag, a
byte size and the content digest that hashlib.md5 would produce for the
file's bytes (the digest is content-addressed, so we store it directly).
SQLite tables are lists of rows in insertion (ROWID) order.  Python
exceptions are modelled with Except: AssertionError (the asserts at the
top of FileNameSizeMd5Comparison.get_md5), FileNotFoundError,
PermissionError and ValueError each get a constructor.
-/

namespace Cronenberg

/-- One row of the version-2 `files` table and, equally, the FileInstance
named tuple of dups.py: (source, path, name, size, md5), where `md5 = none`
models SQL NULL / Python None. -/
structure FileInstance where
  source : String
  path : String
  name : String
  size : Nat
  md5 : Option String
deriving DecidableEq

/-- One filesystem entry: whether it is a regular file, whether reading it
is permitted, its byte size, and the md5 digest of its content. -/
structure FSEntry where
  isFile : Bool
  readable : Bool
  size : Nat
  hash : String
deriving DecidableEq

/-- The filesystem: a finite map from absolute path strings to entries.
A path absent from the list does not exist on disk. -/
structure FS where
  entries : List (String × FSEntry)
deriving DecidableEq

def FS.lookup (fs : FS) (p : String) : Option FSEntry :=
  (fs.entries.find? (fun q => q.1 == p)).map (fun q => q.2)

/-- os.path.exists -/
def FS.pathExists (fs : FS) (p : String) : Bool :=
  (fs.lookup p).isSome

/-- os.path.isfile -/
def FS.isfile (fs : FS) (p : String) : Bool :=
  match fs.lookup p with
  | none => false
  | some e => e.isFile

/-- Whether opening the path for reading succeeds. -/
def FS.readable (fs : FS) (p : String) : Bool :=
  match fs.lookup p with
  | none => false
  | some e => e.readable

/-- The Python exceptions the matching engine and the prune workflow can
raise.  `zeroDivision` is the ZeroDivisionError of the progress check in
DuplicateReportSqlite.duplicates(). -/
inductive Err where
  | assertFailed
  | fileNotFound
  | permissionDenied
  | valueError
  | zeroDivision
deriving DecidableEq

/-- os.path.join for a relative second component: p + "/" + n. -/
def pathJoin (p n : String) : String :=
  p ++ "/" ++ n

def pathJoin3 (a b c : String) : String :=
  pathJoin (pathJoin a b) c

/-- FileNameSizeMd5Comparison.get_md5: `assert os.path.exists(file_path)`,
`assert os.path.isfile(file_path)`, then open the file and hash its
content in 8192-byte chunks.  A missing path or a non-file therefore
raises AssertionError (not FileNotFoundError); an unreadable file raises
PermissionError from open(). -/
def get_md5 (fs : FS) (p : String) : Except Err String :=
  match fs.lookup p with
  | none => Except.error Err.assertFailed
  | some e =>
    if e.isFile = false then Except.error Err.assertFailed
    else if e.readable = false then Except.error Err.permissionDenied
    else Except.ok e.hash

/-- Comparison used by `sorted(candidates_resolved, key=lambda x: x.md5)`.
In every call made by the source all keys are strings (never None); the
`none` cases are a total extension that is never exercised there. -/
def optle (a b : Option String) : Bool :=
  match a, b with
  | none, _ => true
  | some _, none => false
  | some x, some y => decide (x ≤ y)

/-- Insert into a sorted list, keeping the new element before strictly
later positions with equal keys (the stable-sort insertion step). -/
def insertLe (le : α → α → Bool) (x : α) : List α → List α
  | [] => [x]
  | y :: ys => if le x y then x :: y :: ys else y :: insertLe le x ys

/-- Stable insertion sort.  Python's sorted() is a stable sort; every
stable sort yields the same output list, so this is extensionally the
function the source calls. -/
def insSort (le : α → α → Bool) : List α → List α
  | [] => []
  | x :: xs => insertLe le x (insSort le xs)

/-- itertools.groupby, specialised to grouping FileInstances on md5:
consume the list, extending the current run while the key stays equal and
emitting the finished run when it changes.  `run` holds the current run in
reverse. -/
def groupRunsGo (key : Option String) (run : List FileInstance) :
    List FileInstance → List (Option String × List FileInstance)
  | [] => [(key, run.reverse)]
  | x :: xs =>
    if x.md5 = key then groupRunsGo key (x :: run) xs
    else (key, run.reverse) :: groupRunsGo x.md5 [x] xs

/-- The grouping step at the end of Locate2.compare:
`{key: list(value) for key, value in itertools.groupby(sorted(
candidates_resolved, key=lambda x: x.md5), key=lambda x: x.md5)}`.
The dict is modelled as an association list; after sorting, run keys are
pairwise distinct, so no dict entry is ever overwritten. -/
def cluster (l : List FileInstance) : List (Option String × List FileInstance) :=
  match insSort (fun a b => optle a.md5 b.md5) l with
  | [] => []
  | x :: xs => groupRunsGo x.md5 [x] xs

/- ---------- hash-cache writes ---------- -/

/-- The SQL statement `UPDATE files SET md5 = ? WHERE path=? AND name=?`
shared by dups.update_hash_value and
FileNameSizeMd5Comparison.update_match_hash. -/
def updateFilesTable (rows : List FileInstance) (p n h5 : String) :
    List FileInstance :=
  rows.map (fun r =>
    if r.path = p ∧ r.name = n then
      { r with md5 := some h5 }
    else r)

/-- dups.update_hash_value(con, file, hash_value): the same UPDATE keyed
on the FileInstance's own path and name. -/
def update_hash_value (rows : List FileInstance) (file : FileInstance)
    (h5 : String) : List FileInstance :=
  updateFilesTable rows file.path file.name h5

/-- update_attempts in FileNameSizeMd5Comparison.update_match_hash. -/
def update_attempts : Nat := 2

/-- Observable events of update_match_hash: one execute() attempt, the
`sleep(1)` between attempts, and the "Unable cache hash value" warning. -/
inductive UpdateEv where
  | attempt
  | sleepOneSec
  | warnUncached
deriving DecidableEq

/-- The retry loop body of update_match_hash:
`for attempt_number in range(update_attempts)`.  `locked k` says whether
the store raises sqlite3.OperationalError on attempt number `k`.
`remaining` is the number of loop iterations left (the structural fuel:
the source loop runs at most update_attempts times). -/
def umhLoop (locked : Nat → Bool) (rows : List FileInstance)
    (p n h5 : String) : Nat → Nat → List FileInstance × List UpdateEv
  | 0, _ => (rows, [])
  | Nat.succ rem, k =>
    if locked k then
      if k + 1 < update_attempts then
        let r := umhLoop locked rows p n h5 rem (k + 1)
        (r.1, UpdateEv.attempt :: UpdateEv.sleepOneSec :: r.2)
      else (rows, [UpdateEv.attempt, UpdateEv.warnUncached])
    else (updateFilesTable rows p n h5, [UpdateEv.attempt])

/-- FileNameSizeMd5Comparison.update_match_hash: try the UPDATE, and on
OperationalError sleep one second and retry once; after the second
failure print a warning and return normally, leaving the table as it
was.  No exception ever escapes (the except clause never re-raises). -/
def update_match_hash (locked : Nat → Bool) (rows : List FileInstance)
    (p n h5 : String) : List FileInstance × List UpdateEv :=
  umhLoop locked rows p n h5 update_attempts 0

/- ---------- Locate2.compare ---------- -/

/-- The candidate-resolution loop of Locate2.compare.  For a candidate
whose md5 is None, get_hash_value (which is get_md5) is called inside
`try ... except FileNotFoundError: warnings.warn(...); continue`; any
other exception (AssertionError from get_md5's asserts, PermissionError
from open) propagates.  On success the callback update_value — in the
caller always update_hash_value against the store — caches the hash, and
a copy of the candidate carrying the hash is collected.  Returns the
resolved candidates together with the updated files table. -/
def compareResolve (fs : FS) :
    List FileInstance → List FileInstance →
    Except Err (List FileInstance × List FileInstance)
  | rows, [] => Except.ok ([], rows)
  | rows, c :: cs =>
    match c.md5 with
    | some _ =>
      match compareResolve fs rows cs with
      | Except.error e => Except.error e
      | Except.ok (res, rows2) => Except.ok (c :: res, rows2)
    | none =>
      match get_md5 fs (pathJoin3 c.source c.path c.name) with
      | Except.error Err.fileNotFound => compareResolve fs rows cs
      | Except.error e => Except.error e
      | Except.ok h5 =>
        match compareResolve fs (update_hash_value rows c h5) cs with
        | Except.error e => Except.error e
        | Except.ok (res, rows2) =>
          Except.ok ({ c with md5 := some h5 } :: res, rows2)

/-- Locate2.compare: raise ValueError on fewer than two candidates,
resolve missing hashes, then group the resolved candidates by md5. -/
def compare (fs : FS) (rows : List FileInstance)
    (candidates : List FileInstance) :
    Except Err (List (Option String × List FileInstance) × List FileInstance) :=
  if candidates.length < 2 then Except.error Err.valueError
  else
    match compareResolve fs rows candidates with
    | Except.error e => Except.error e
    | Except.ok (resolved, rows2) => Except.ok (cluster resolved, rows2)

/-- Claim C4 filesystem: the /a candidate's file is gone from disk, the
/b candidate's file is present and readable. -/
def fsC4 : FS :=
  ⟨[("/b/other/x.txt", ⟨true, true, 10, "h0"⟩)]⟩

def rowA : FileInstance := ⟨"/a", "sub", "x.txt", 10, none⟩

def rowB : FileInstance := ⟨"/b", "other", "x.txt", 10, none⟩

/- ---------- FileNameSizeMd5Comparison.find_matches ---------- -/

/-- The probe-hash step of find_matches: `if file_md5 is None: file_md5 =
self.get_md5(file_name)` inside `try ... except PermissionError`, which
makes the whole call return an empty set.  `Except.ok none` encodes that
caught PermissionError; any other exception propagates. -/
def probeMd5 (fs : FS) (probe : String) (fileMd5 : Option String) :
    Except Err (Option String) :=
  match fileMd5 with
  | some v => Except.ok (some v)
  | none =>
    match get_md5 fs probe with
    | Except.ok v => Except.ok (some v)
    | Except.error Err.permissionDenied => Except.ok none
    | Except.error e => Except.error e

/-- `matches.add(...)` on the Python set of (source, joined path) pairs. -/
def pushMatch (ms : List (String × String)) (pr : String × String) :
    List (String × String) :=
  if pr ∈ ms then ms else ms ++ [pr]

/-- The candidate loop of find_matches over the rows returned by
`SELECT source, name, path, size, md5 FROM files WHERE name=? AND
size=?`.  For a row with NULL md5 whose file still exists and is a
regular file, the hash is computed and cached with update_match_hash —
executed on the same cursor that is iterating the SELECT, which resets
that cursor, so the loop ends once the current row's body finishes (the
remaining candidate rows are never fetched).  Rows whose file is missing
or not a regular file are skipped with `continue`, leaving the cursor
intact.  State: `rows` the files table, `fileMd5` the memoized probe
hash, `ms` the accumulated match set. -/
def fmGo (fs : FS) (probe : String) :
    List FileInstance → Option String → List (String × String) →
    List FileInstance →
    Except Err (List (String × String) × List FileInstance)
  | rows, _, ms, [] => Except.ok (ms, rows)
  | rows, fileMd5, ms, c :: cs =>
    match c.md5 with
    | some m =>
      match probeMd5 fs probe fileMd5 with
      | Except.error e => Except.error e
      | Except.ok none => Except.ok ([], rows)
      | Except.ok (some fv) =>
        fmGo fs probe rows (some fv)
          (if m = fv then pushMatch ms (c.source, pathJoin c.path c.name) else ms)
          cs
    | none =>
      if fs.pathExists (pathJoin3 c.source c.path c.name) = false ∨
          fs.isfile (pathJoin3 c.source c.path c.name) = false then
        fmGo fs probe rows fileMd5 ms cs
      else
        match get_md5 fs (pathJoin3 c.source c.path c.name) with
        | Except.error e => Except.error e
        | Except.ok m =>
          let rows2 := updateFilesTable rows c.path c.name m
          match probeMd5 fs probe fileMd5 with
          | Except.error e => Except.error e
          | Except.ok none => Except.ok ([], rows2)
          | Except.ok (some fv) =>
            Except.ok
              (if m = fv then pushMatch ms (c.source, pathJoin c.path c.name)
               else ms,
               rows2)

/-- Last path component, pathlib.Path(file_name).name: the characters
after the final slash. -/
def baseName (s : String) : String :=
  String.mk ((s.data.reverse.takeWhile (fun c => !(c == '/'))).reverse)

/-- FileNameSizeMd5Comparison.find_matches: `os.stat(file_name)` (raising
FileNotFoundError if the probe is gone), then the candidate loop over
rows matching the probe's base name and size. -/
def find_matches (fs : FS) (rows : List FileInstance) (probe : String) :
    Except Err (List (String × String) × List FileInstance) :=
  match fs.lookup probe with
  | none => Except.error Err.fileNotFound
  | some st =>
    fmGo fs probe rows none []
      (rows.filter (fun r => r.name == baseName probe && r.size == st.size))

/- ---------- Claim C2: the concrete two-record scenario ---------- -/

/-- Claim C2 filesystem: /a/sub/x.txt and /b/other/x.txt both exist,
are regular readable files of size 10 with identical content (digest
"h0"). -/
def fsC2 : FS :=
  ⟨[("/a/sub/x.txt", ⟨true, true, 10, "h0"⟩),
    ("/b/other/x.txt", ⟨true, true, 10, "h0"⟩)]⟩

/- ---------- DataSchema2: add_files and records (Claim C5) ---------- -/

/-- A record handed to DataSchema2.add_files by MapPath.execute:
(source, name, path, size). -/
abbrev Rec4 := String × String × String × Nat

/-- DataSchema2.add_files: `INSERT INTO files (source, name, path, size)
VALUES (?, ?, ?, ?)` for each record, leaving md5 NULL. -/
def DataSchema2_add_files (rows : List FileInstance) (records : List Rec4) :
    List FileInstance :=
  rows ++ records.map (fun q =>
    { source := q.1, name := q.2.1, path := q.2.2.1, size := q.2.2.2,
      md5 := none })

/-- DataSchema2.records: `SELECT name, path, size FROM files ORDER BY
path`.  ORDER BY with the BINARY collation sorts by the UTF-8 byte order
of `path`, which agrees with the code-point order of Lean's String ≤; a
stable sort is one valid realisation (SQLite fixes no order among equal
keys, and the claim needs none). -/
def DataSchema2_records (rows : List FileInstance) :
    List (String × String × Nat) :=
  (insSort (fun a b => decide (a.path ≤ b.path)) rows).map
    (fun r => (r.name, r.path, r.size))

/- ---------- Claim C3: reported duplicate groups have two members ------ -/

/-- GenerateReport.execute: for each (name, hash, size) group read from a
dups database, build the joined instance paths and skip any group with
fewer than two instances before adding it to the HTML report. -/
def generateReportRecords
    (dups : List ((String × String × Nat) × List (String × String))) :
    List ((String × String × Nat) × List String) :=
  dups.filterMap (fun q =>
    let instances := q.2.map (fun loc => pathJoin (pathJoin loc.1 loc.2) q.1.1)
    if instances.length < 2 then none
    else some (q.1, instances))

/-- Locate1.run's recording step: for each probe file with its match set,
`if matches: report_writer.add_duplicates(f, matches)` — only probes with
a non-empty match set produce a report entry, which pairs the probe with
its matches. -/
def locate1Report (probeMatches : List (String × List String)) :
    List (String × List String) :=
  probeMatches.filter (fun q => !q.2.isEmpty)

/- ---------- Claim C10: MapPath.execute skips empty files ---------- -/

/-- One file produced by the walker during MapPath.execute, together with
what filescanner.scan_file would report for it: base name, parent
directory relative to the root, the path relative to the root as a
string, whether it still exists when re-checked, and its stat size. -/
structure WalkEntry where
  name : String
  parent : String
  relStr : String
  present : Bool
  size : Nat
deriving DecidableEq

/-- The scan loop of MapPath.execute: skip entries already catalogued or
no longer present, skip entries whose scanned size is 0, otherwise buffer
(root, name, path, size); flush the buffer through add_files whenever it
exceeds 100 records, and flush the remainder in the `finally` block.
Returns the concatenation of all flushed batches — the records the run
adds to the store. -/
def mapGo (root : String) (existing : List String) :
    List WalkEntry → List Rec4 → List Rec4 → List Rec4
  | [], written, buffer => written ++ buffer
  | e :: es, written, buffer =>
    if existing.contains e.relStr || !e.present then
      mapGo root existing es written buffer
    else if e.size == 0 then
      mapGo root existing es written buffer
    else
      let buffer2 := buffer ++ [(root, e.name, e.parent, e.size)]
      if 100 < buffer2.length then mapGo root existing es (written ++ buffer2) []
      else mapGo root existing es written buffer2

/-- The records a MapPath.execute run adds to the store. -/
def mapExecuteAdds (root : String) (existing : List String)
    (entries : List WalkEntry) : List Rec4 :=
  mapGo root existing entries [] []

/- ---------- Claim C9: Match Report Store pruning ---------- -/

/-- os.path.split for the paths the prune workflow handles: cut at the
last slash; with no slash the head is empty.  (For a file directly under
the filesystem root Python keeps the slash in the head; the prune
workflow only meets paths of the form join(directory, name).) -/
def splitPath (s : String) : String × String :=
  match s.data.reverse.dropWhile (fun c => !(c == '/')) with
  | [] => ("", s)
  | _ :: t =>
    (String.mk t.reverse,
     String.mk ((s.data.reverse.takeWhile (fun c => !(c == '/'))).reverse))

/-- One row of the `match_files` table of the Match Report Store: the
"local" file's directory, base name and size. -/
structure MatchFile where
  path : String
  name : String
  size : Nat
deriving DecidableEq

/-- One row of the `mapped_files` table: a duplicate location pointing at
its match_files row through `match_id` (the 1-based ROWID of that row
in insertion order). -/
structure MappedFile where
  path : String
  name : String
  matchId : Nat
deriving DecidableEq

/-- The Match Report Store written by DuplicateReportSqlite. -/
structure ReportStore where
  match_files : List MatchFile
  mapped_files : List MappedFile
deriving DecidableEq

/-- One Record yielded by DuplicateReportSqlite.duplicates(). -/
structure DupRecord where
  filename : String
  local_file : String
  mapped_file : String
deriving DecidableEq

/-- The rows that the SELECT inside DuplicateReportSqlite.duplicates()
fetches: the inner join of mapped_files with match_files on match_id =
ROWID, each producing a Record whose local_file joins the match row's
path with the mapped row's name.  `COUNT(*)` over the same join — the
`number_of_matches` of the source — is the length of this list.  The
ORDER BY only affects enumeration order, which the prune workflow (which
collects a set) does not depend on, so it is omitted. -/
def duplicatesJoin (st : ReportStore) : List DupRecord :=
  st.mapped_files.filterMap (fun m =>
    match st.match_files[m.matchId - 1]? with
    | none => none
    | some r =>
      some { filename := m.name,
             local_file := pathJoin r.path m.name,
             mapped_file := pathJoin m.path m.name })

/-- The duplicates() generator as its consumer observes it: one Record
per joined row, but after every `yield` the progress logging evaluates
`(i + 1) % int(number_of_matches/10)` — the first operand of an `or`, so
it is always computed.  `int(number_of_matches/10)` is truncating
division; when the join has between one and nine rows it is zero and the
modulo raises ZeroDivisionError as soon as the consumer asks for the
second record, so exactly one record is delivered before the exception.
With ten or more rows (or an empty join, whose loop body never runs) no
exception occurs.  Returns the delivered records and the exception, if
any, that ends the iteration. -/
def duplicatesRun (st : ReportStore) : List DupRecord × Option Err :=
  match duplicatesJoin st with
  | [] => ([], none)
  | r0 :: rest =>
    if (r0 :: rest).length / 10 = 0 then ([r0], some Err.zeroDivision)
    else (r0 :: rest, none)

/-- The collection DupsPath._prune builds when duplicates() finishes
without an exception: the local_file of every joined record that no
longer exists on disk (`ex` is os.path.exists restricted to these
strings).  The source accumulates a set; list membership below plays the
set's role. -/
def pruneCandidates (ex : String → Bool) (st : ReportStore) : List String :=
  ((duplicatesJoin st).map (fun r => r.local_file)).filter
    (fun f => !(ex f))

/-- DuplicateReportSqlite.remove_local_files: split every incoming file
path with os.path.split and issue `DELETE FROM match_files WHERE path = ?
AND name = ?` for each pair, returning the set of pairs as the pruned
set.  The source batches the deletes 100 pairs at a time over a sorted
copy; batching and order do not change the resulting table or the
returned set, so the model deletes in one pass. -/
def remove_local_files (mf : List MatchFile) (files : List String) :
    List MatchFile × List (String × String) :=
  let pairs := files.map splitPath
  (mf.filter (fun r => !(pairs.contains (r.path, r.name))), pairs)

/-- DupsPath._prune: drain duplicates() collecting the missing local
files, then hand a non-empty collection to remove_local_files (an empty
one leaves the store alone).  _prune has no exception handler, so an
exception from the generator propagates and aborts the workflow before
any DELETE runs: the records delivered before the crash only fed the
local set, which dies with the exception, and the store is unchanged. -/
def prune (ex : String → Bool) (st : ReportStore) :
    Except Err (List MatchFile × List (String × String)) :=
  match duplicatesRun st with
  | (_, some e) => Except.error e
  | (recs, none) =>
    let files := (recs.map (fun r => r.local_file)).filter (fun f => !(ex f))
    if files.isEmpty then Except.ok (st.match_files, [])
    else Except.ok (remove_local_files st.match_files files)

/-- Claim C9 store: two match_files rows, each with one mapped child, so
the duplicates() join has two rows. -/
def stC9 : ReportStore :=
  { match_files := [⟨"/d", "a.txt", 3⟩, ⟨"/d", "b.txt", 4⟩],
    mapped_files := [⟨"/m", "a.txt", 1⟩, ⟨"/m", "b.txt", 2⟩] }

/-- Claim C9 disk: /d/b.txt still exists, /d/a.txt is gone. -/
def exC9 : String → Bool := fun s => s == "/d/b.txt"

/- ======================== theorems ======================== -/

/- ---------- sorting lemmas ---------- -/

theorem perm_insertLe (le : α → α → Bool) (x : α) (l : List α) :
    (insertLe le x l).Perm (x :: l) := by
  induction l with
  | nil => exact List.Perm.refl _
  | cons y ys ih =>
    by_cases h : le x y = true
    · simp [insertLe, h]
    · simp only [insertLe, h]
      rw [if_neg (by simp [h])]
      exact (ih.cons y).trans (List.Perm.swap x y ys)

theorem perm_insSort (le : α → α → Bool) (l : List α) :
    (insSort le l).Perm l := by
  induction l with
  | nil => exact List.Perm.refl _
  | cons x xs ih =>
    exact (perm_insertLe le x (insSort le xs)).trans (ih.cons x)

theorem mem_insertLe {le : α → α → Bool} {x a : α} {l : List α} :
    a ∈ insertLe le x l ↔ a = x ∨ a ∈ l := by
  rw [(perm_insertLe le x l).mem_iff, List.mem_cons]

theorem pairwise_insertLe {le : α → α → Bool}
    (total : ∀ a b, le a b = true ∨ le b a = true)
    (htrans : ∀ a b c, le a b = true → le b c = true → le a c = true)
    {x : α} {l : List α} (hl : l.Pairwise (fun a b => le a b = true)) :
    (insertLe le x l).Pairwise (fun a b => le a b = true) := by
  induction l with
  | nil => simp [insertLe]
  | cons y ys ih =>
    rcases List.pairwise_cons.mp hl with ⟨hy, hys⟩
    by_cases h : le x y = true
    · simp only [insertLe, h, if_pos]
      refine List.pairwise_cons.mpr ⟨?_, hl⟩
      intro z hz
      rcases List.mem_cons.mp hz with rfl | hz
      · exact h
      · exact htrans x y z h (hy z hz)
    · simp only [insertLe, h]
      rw [if_neg (by simp [h])]
      refine List.pairwise_cons.mpr ⟨?_, ih hys⟩
      intro z hz
      rcases mem_insertLe.mp hz with rfl | hz
      · rcases total z y with hzy | hyz
        · exact absurd hzy h
        · exact hyz
      · exact hy z hz

theorem sorted_insSort {le : α → α → Bool}
    (total : ∀ a b, le a b = true ∨ le b a = true)
    (htrans : ∀ a b c, le a b = true → le b c = true → le a c = true)
    (l : List α) : (insSort le l).Pairwise (fun a b => le a b = true) := by
  induction l with
  | nil => simp [insSort]
  | cons x xs ih => exact pairwise_insertLe total htrans ih

theorem optle_total (a b : Option String) :
    optle a b = true ∨ optle b a = true := by
  cases a with
  | none => left; rfl
  | some x =>
    cases b with
    | none => right; rfl
    | some y =>
      rcases le_total x y with h | h
      · left; simp [optle, h]
      · right; simp [optle, h]

theorem optle_trans (a b c : Option String)
    (h1 : optle a b = true) (h2 : optle b c = true) : optle a c = true := by
  cases a with
  | none => rfl
  | some x =>
    cases b with
    | none => exact absurd h1 (by simp [optle])
    | some y =>
      cases c with
      | none => exact absurd h2 (by simp [optle])
      | some z =>
        simp only [optle, decide_eq_true_eq] at h1 h2 ⊢
        exact le_trans h1 h2

theorem optle_antisymm {a b : Option String}
    (h1 : optle a b = true) (h2 : optle b a = true) : a = b := by
  cases a with
  | none =>
    cases b with
    | none => rfl
    | some y => exact absurd h2 (by simp [optle])
  | some x =>
    cases b with
    | none => exact absurd h1 (by simp [optle])
    | some y =>
      simp only [optle, decide_eq_true_eq] at h1 h2
      exact congrArg some (le_antisymm h1 h2)

/- ---------- grouping lemmas ---------- -/

/-- Every member of every emitted group has the group's key as its md5,
provided the accumulated run already does. -/
theorem groupRunsGo_key_sound :
    ∀ (xs : List FileInstance) (key : Option String) (run : List FileInstance),
      (∀ a ∈ run, a.md5 = key) →
      ∀ g ∈ groupRunsGo key run xs, ∀ a ∈ g.2, a.md5 = g.1 := by
  intro xs
  induction xs with
  | nil =>
    intro key run hrun g hg a ha
    simp only [groupRunsGo, List.mem_singleton] at hg
    subst hg
    exact hrun a (List.mem_reverse.mp ha)
  | cons x xs ih =>
    intro key run hrun g hg a ha
    by_cases hx : x.md5 = key
    · rw [groupRunsGo, if_pos hx] at hg
      refine ih key (x :: run) ?_ g hg a ha
      intro b hb
      rcases List.mem_cons.mp hb with rfl | hb
      · exact hx
      · exact hrun b hb
    · rw [groupRunsGo, if_neg hx] at hg
      rcases List.mem_cons.mp hg with rfl | hg
      · exact hrun a (List.mem_reverse.mp ha)
      · refine ih x.md5 [x] ?_ g hg a ha
        intro b hb
        rcases List.mem_singleton.mp hb with rfl
        rfl

/-- Every element of the accumulated run or of the remaining input lands
in some emitted group. -/
theorem groupRunsGo_complete :
    ∀ (xs : List FileInstance) (key : Option String) (run : List FileInstance)
      (a : FileInstance), (a ∈ run ∨ a ∈ xs) →
      ∃ g, g ∈ groupRunsGo key run xs ∧ a ∈ g.2 := by
  intro xs
  induction xs with
  | nil =>
    intro key run a ha
    rcases ha with ha | ha
    · exact ⟨(key, run.reverse), List.mem_singleton.mpr rfl, List.mem_reverse.mpr ha⟩
    · exact absurd ha (List.not_mem_nil a)
  | cons x xs ih =>
    intro key run a ha
    by_cases hx : x.md5 = key
    · rw [groupRunsGo, if_pos hx]
      refine ih key (x :: run) a ?_
      rcases ha with ha | ha
      · exact Or.inl (List.mem_cons_of_mem x ha)
      · rcases List.mem_cons.mp ha with rfl | ha
        · exact Or.inl (List.mem_cons_self a run)
        · exact Or.inr ha
    · rw [groupRunsGo, if_neg hx]
      rcases ha with ha | ha
      · exact ⟨(key, run.reverse), List.mem_cons_self _ _, List.mem_reverse.mpr ha⟩
      · rcases List.mem_cons.mp ha with rfl | ha
        · rcases ih a.md5 [a] a (Or.inl (List.mem_singleton.mpr rfl)) with ⟨g, hg, hag⟩
          exact ⟨g, List.mem_cons_of_mem _ hg, hag⟩
        · rcases ih x.md5 [x] a (Or.inr ha) with ⟨g, hg, hag⟩
          exact ⟨g, List.mem_cons_of_mem _ hg, hag⟩

/-- Every emitted key is the starting key or the md5 of an input element. -/
theorem groupRunsGo_keys :
    ∀ (xs : List FileInstance) (key : Option String) (run : List FileInstance),
      ∀ g ∈ groupRunsGo key run xs, g.1 = key ∨ ∃ y ∈ xs, g.1 = y.md5 := by
  intro xs
  induction xs with
  | nil =>
    intro key run g hg
    simp only [groupRunsGo, List.mem_singleton] at hg
    subst hg
    exact Or.inl rfl
  | cons x xs ih =>
    intro key run g hg
    by_cases hx : x.md5 = key
    · rw [groupRunsGo, if_pos hx] at hg
      rcases ih key (x :: run) g hg with h | ⟨y, hy, hgy⟩
      · exact Or.inl h
      · exact Or.inr ⟨y, List.mem_cons_of_mem x hy, hgy⟩
    · rw [groupRunsGo, if_neg hx] at hg
      rcases List.mem_cons.mp hg with rfl | hg
      · exact Or.inl rfl
      · rcases ih x.md5 [x] g hg with h | ⟨y, hy, hgy⟩
        · exact Or.inr ⟨x, List.mem_cons_self x xs, h⟩
        · exact Or.inr ⟨y, List.mem_cons_of_mem x hy, hgy⟩

/-- Over a sorted remainder whose md5s all dominate the current key, the
emitted keys are pairwise distinct. -/
theorem groupRunsGo_keys_distinct :
    ∀ (xs : List FileInstance) (key : Option String) (run : List FileInstance),
      xs.Pairwise (fun a b => optle a.md5 b.md5 = true) →
      (∀ y ∈ xs, optle key y.md5 = true) →
      (groupRunsGo key run xs).Pairwise (fun g h => g.1 ≠ h.1) := by
  intro xs
  induction xs with
  | nil =>
    intro key run _ _
    simp [groupRunsGo]
  | cons x xs ih =>
    intro key run hsort hdom
    rcases List.pairwise_cons.mp hsort with ⟨hx, hxs⟩
    by_cases hxk : x.md5 = key
    · rw [groupRunsGo, if_pos hxk]
      refine ih key (x :: run) hxs ?_
      intro y hy
      rw [← hxk]
      exact hx y hy
    · rw [groupRunsGo, if_neg hxk]
      refine List.pairwise_cons.mpr ⟨?_, ih x.md5 [x] hxs hx⟩
      intro g hg
      have hkx : optle key x.md5 = true := hdom x (List.mem_cons_self x xs)
      rcases groupRunsGo_keys xs x.md5 [x] g hg with h | ⟨y, hy, hgy⟩
      · rw [h]
        intro h2
        exact hxk h2.symm
      · rw [hgy]
        intro h2
        have hky : optle key y.md5 = true := hdom y (List.mem_cons_of_mem x hy)
        have hxy : optle x.md5 y.md5 = true := hx y hy
        rw [← h2] at hxy
        exact hxk (optle_antisymm hxy hkx)

/-- Claim theorem helper: facts about `cluster` on an arbitrary resolved
candidate list. -/
theorem cluster_facts (l : List FileInstance) :
    (∀ a ∈ l, ∃ g, g ∈ cluster l ∧ a ∈ g.2) ∧
    (∀ g ∈ cluster l, ∀ a ∈ g.2, a.md5 = g.1) ∧
    (cluster l).Pairwise (fun g h => g.1 ≠ h.1) := by
  have hperm := perm_insSort (fun a b : FileInstance => optle a.md5 b.md5) l
  have hsort := sorted_insSort
    (fun a b : FileInstance => optle_total a.md5 b.md5)
    (fun a b c : FileInstance => optle_trans a.md5 b.md5 c.md5) l
  unfold cluster
  cases hs : insSort (fun a b : FileInstance => optle a.md5 b.md5) l with
  | nil =>
    rw [hs] at hperm
    have : l = [] := (List.Perm.nil_eq hperm).symm
    subst this
    refine ⟨?_, ?_, ?_⟩
    · intro a ha; exact absurd ha (List.not_mem_nil a)
    · intro g hg; exact absurd hg (List.not_mem_nil g)
    · exact List.Pairwise.nil
  | cons x xs =>
    rw [hs] at hsort hperm
    rcases List.pairwise_cons.mp hsort with ⟨hx, hxs⟩
    refine ⟨?_, ?_, ?_⟩
    · intro a ha
      have : a ∈ x :: xs := hperm.symm.subset ha
      rcases List.mem_cons.mp this with rfl | h
      · exact groupRunsGo_complete xs a.md5 [a] a (Or.inl (List.mem_singleton.mpr rfl))
      · exact groupRunsGo_complete xs x.md5 [x] a (Or.inr h)
    · intro g hg a ha
      refine groupRunsGo_key_sound xs x.md5 [x] ?_ g hg a ha
      intro b hb
      rcases List.mem_singleton.mp hb with rfl
      rfl
    · exact groupRunsGo_keys_distinct xs x.md5 [x] hxs hx

/-- Claim C1: for every resolved candidate list handed to the grouping
step of Locate2.compare, every candidate lands in a group, and two group
members share an md5 hash exactly when they sit in the same group. -/
theorem cluster_same_hash_iff_same_group (l : List FileInstance) :
    (∀ a ∈ l, ∃ g, g ∈ cluster l ∧ a ∈ g.2) ∧
    (∀ g₁ g₂, g₁ ∈ cluster l → g₂ ∈ cluster l →
      ∀ a ∈ g₁.2, ∀ b ∈ g₂.2, (a.md5 = b.md5 ↔ g₁ = g₂)) := by
  rcases cluster_facts l with ⟨hcomp, hsound, hdist⟩
  refine ⟨hcomp, ?_⟩
  intro g₁ g₂ hg₁ hg₂ a ha b hb
  constructor
  · intro hab
    by_contra hne
    have : g₁.1 ≠ g₂.1 :=
      List.Pairwise.forall (by intro p q h; exact h.symm) hdist hg₁ hg₂ hne
    exact this ((hsound g₁ hg₁ a ha).symm.trans (hab.trans (hsound g₂ hg₂ b hb)))
  · intro heq
    rw [hsound g₁ hg₁ a ha, hsound g₂ hg₂ b hb, heq]

/-- Claim C1 witness: two same-hash and one different-hash instance. -/
theorem cluster_same_hash_iff_same_group_witness :
    ∃ g, g ∈ cluster
      [⟨"/a", "p", "f", 3, some "h1"⟩, ⟨"/b", "q", "f", 3, some "h1"⟩] ∧
      (⟨"/a", "p", "f", 3, some "h1"⟩ : FileInstance) ∈ g.2 :=
  (cluster_same_hash_iff_same_group
    [⟨"/a", "p", "f", 3, some "h1"⟩, ⟨"/b", "q", "f", 3, some "h1"⟩]).1
    ⟨"/a", "p", "f", 3, some "h1"⟩ (by decide)

/-- Claim C7: the UPDATE behind setHash touches exactly the rows matching
(path, name), and on those rows exactly the md5 column. -/
theorem updateFilesTable_frame (rows : List FileInstance) (p n h5 : String) :
    List.Forall₂ (fun r s =>
        (r.path = p ∧ r.name = n → s = { r with md5 := some h5 }) ∧
        (¬(r.path = p ∧ r.name = n) → s = r))
      rows (updateFilesTable rows p n h5) := by
  induction rows with
  | nil => exact List.Forall₂.nil
  | cons r rs ih =>
    refine List.Forall₂.cons ⟨?_, ?_⟩ ih
    · intro h
      simp [updateFilesTable, h]
    · intro h
      simp [updateFilesTable, h]

/-- Claim C8: against a store that stays locked, the write is attempted
exactly twice with a one-second sleep in between, then a warning is
emitted and the table (in particular the record's md5) is unchanged; the
function still returns normally.  If the lock clears after the first
failure, the second attempt performs the UPDATE. -/
theorem update_match_hash_retry (rows : List FileInstance) (p n h5 : String) :
    update_match_hash (fun _ => true) rows p n h5 =
      (rows, [UpdateEv.attempt, UpdateEv.sleepOneSec, UpdateEv.attempt,
              UpdateEv.warnUncached]) ∧
    update_match_hash (fun k => decide (k = 0)) rows p n h5 =
      (updateFilesTable rows p n h5,
       [UpdateEv.attempt, UpdateEv.sleepOneSec, UpdateEv.attempt]) := by
  constructor <;> rfl

/-- Claim C4: with one candidate file missing on disk, Locate2.compare
does not skip it — get_md5's `assert os.path.exists` raises
AssertionError, which the `except FileNotFoundError` handler does not
catch, so the whole call aborts and the remaining candidate is never
processed. -/
theorem compare_missing_candidate_aborts :
    compare fsC4 [rowA, rowB] [rowA, rowB] = Except.error Err.assertFailed := by
  rfl

/-- Claim C2 counterexample: probing /a/sub/x.txt against the two-record
catalogue returns a set that does NOT contain (/b, other/x.txt) and DOES
contain the probe's own entry (/a, sub/x.txt) — the exact opposite of
the claim on both counts. -/
theorem find_matches_self_inclusion_counterexample :
    (find_matches fsC2 [rowA, rowB] "/a/sub/x.txt").map
      (fun r => (r.1.contains ("/b", "other/x.txt"),
                 r.1.contains ("/a", "sub/x.txt"))) =
      Except.ok (false, true) := by
  rfl

/-- Claim C2 amended: the call returns exactly the probe's own catalogue
entry.  The /a row matches the probe's name and size, its file hashes to
the probe's own digest (the probe is that file), so it is added to the
match set; caching its hash executes an UPDATE on the cursor that is
iterating the SELECT, which ends the iteration, so the /b row is never
examined.  The table afterwards carries the cached hash on the /a row. -/
theorem find_matches_returns_own_entry :
    find_matches fsC2 [rowA, rowB] "/a/sub/x.txt" =
      Except.ok ([("/a", "sub/x.txt")],
        [⟨"/a", "sub", "x.txt", 10, some "h0"⟩, rowB]) := by
  rfl

/- ---------- Claim C6: PermissionError on the probe ---------- -/

theorem get_md5_perm {fs : FS} {p : String} {e : FSEntry}
    (he : fs.lookup p = some e) (hf : e.isFile = true)
    (hr : e.readable = false) :
    get_md5 fs p = Except.error Err.permissionDenied := by
  unfold get_md5
  rw [he]
  simp [hf, hr]

theorem get_md5_ok_of_flags {fs : FS} {p : String}
    (h1 : fs.pathExists p = true) (h2 : fs.isfile p = true)
    (h3 : fs.readable p = true) :
    ∃ v, get_md5 fs p = Except.ok v := by
  unfold FS.pathExists at h1
  unfold FS.isfile at h2
  unfold FS.readable at h3
  unfold get_md5
  cases hl : fs.lookup p with
  | none => rw [hl] at h1; exact absurd h1 (by simp)
  | some e =>
    rw [hl] at h2 h3
    simp only at h2 h3
    refine ⟨e.hash, ?_⟩
    simp [h2, h3]

theorem fmGo_probe_unreadable {fs : FS} {probe : String} {e : FSEntry}
    (he : fs.lookup probe = some e) (hf : e.isFile = true)
    (hr : e.readable = false) :
    ∀ (cs rows : List FileInstance),
      (∀ c ∈ cs, c.md5 = none →
        fs.pathExists (pathJoin3 c.source c.path c.name) = true →
        fs.isfile (pathJoin3 c.source c.path c.name) = true →
        fs.readable (pathJoin3 c.source c.path c.name) = true) →
      ∃ rows2, fmGo fs probe rows none [] cs = Except.ok ([], rows2) := by
  have hperm : probeMd5 fs probe none = Except.ok none := by
    unfold probeMd5
    rw [get_md5_perm he hf hr]
  intro cs
  induction cs with
  | nil => exact fun rows _ => ⟨rows, rfl⟩
  | cons c cs ih =>
    intro rows hcand
    cases hc : c.md5 with
    | some m =>
      refine ⟨rows, ?_⟩
      unfold fmGo
      rw [hc, hperm]
    | none =>
      by_cases hskip :
          fs.pathExists (pathJoin3 c.source c.path c.name) = false ∨
          fs.isfile (pathJoin3 c.source c.path c.name) = false
      · have := ih rows (fun d hd => hcand d (List.mem_cons_of_mem c hd))
        rcases this with ⟨rows2, hrows2⟩
        refine ⟨rows2, ?_⟩
        unfold fmGo
        rw [hc, if_pos hskip]
        exact hrows2
      · push_neg at hskip
        have hex : fs.pathExists (pathJoin3 c.source c.path c.name) = true :=
          eq_true_of_ne_false hskip.1
        have hif : fs.isfile (pathJoin3 c.source c.path c.name) = true :=
          eq_true_of_ne_false hskip.2
        have hrd : fs.readable (pathJoin3 c.source c.path c.name) = true :=
          hcand c (List.mem_cons_self c cs) hc hex hif
        rcases get_md5_ok_of_flags hex hif hrd with ⟨v, hv⟩
        refine ⟨updateFilesTable rows c.path c.name v, ?_⟩
        unfold fmGo
        rw [hc, if_neg (by simp [hex, hif]), hv, hperm]

/-- Claim C6: when reading the probe file for hashing raises
PermissionError (the probe exists and is a regular file but is not
readable), find_matches returns an empty match set for the store and no
exception escapes.  The hypothesis on candidate rows states that the
catalogued files the loop hashes before touching the probe are
themselves readable, i.e. the PermissionError under discussion is the
probe's. -/
theorem find_matches_probe_permission_denied
    (fs : FS) (rows : List FileInstance) (probe : String) (e : FSEntry)
    (he : FS.lookup fs probe = some e) (hf : e.isFile = true)
    (hr : e.readable = false)
    (hcand : ∀ c ∈ rows, c.md5 = none →
      FS.pathExists fs (pathJoin3 c.source c.path c.name) = true →
      FS.isfile fs (pathJoin3 c.source c.path c.name) = true →
      FS.readable fs (pathJoin3 c.source c.path c.name) = true) :
    ∃ rows2, find_matches fs rows probe = Except.ok ([], rows2) := by
  unfold find_matches
  rw [he]
  exact fmGo_probe_unreadable he hf hr _ rows
    (fun c hc => hcand c (List.mem_filter.mp hc).1)

/-- Claim C6 witness: a store with one hash-cached candidate row and an
unreadable probe file. -/
theorem find_matches_probe_permission_denied_witness :
    FS.lookup ⟨[("/r/p/f.txt", ⟨true, false, 4, "h9"⟩)]⟩ "/r/p/f.txt" =
        some ⟨true, false, 4, "h9"⟩ ∧
    ∃ rows2,
      find_matches ⟨[("/r/p/f.txt", ⟨true, false, 4, "h9"⟩)]⟩
        [⟨"/s", "p", "f.txt", 4, some "h9"⟩] "/r/p/f.txt" =
        Except.ok ([], rows2) :=
  ⟨by rfl,
   find_matches_probe_permission_denied
     ⟨[("/r/p/f.txt", ⟨true, false, 4, "h9"⟩)]⟩
     [⟨"/s", "p", "f.txt", 4, some "h9"⟩] "/r/p/f.txt"
     ⟨true, false, 4, "h9"⟩ (by rfl) (by rfl) (by rfl)
     (by decide)⟩

/-- Claim C5: bulk-inserting records into a fresh version-2 store and
reading them back yields exactly the (name, path, size) projections of
the inserted records, ordered ascending by path. -/
theorem records_roundtrip (records : List Rec4) :
    (DataSchema2_records (DataSchema2_add_files [] records)).Perm
      (records.map (fun q => (q.2.1, q.2.2.1, q.2.2.2))) ∧
    (DataSchema2_records (DataSchema2_add_files [] records)).Pairwise
      (fun a b => a.2.1 ≤ b.2.1) := by
  constructor
  · unfold DataSchema2_records DataSchema2_add_files
    rw [List.nil_append]
    have hperm :=
      (perm_insSort (fun a b : FileInstance => decide (a.path ≤ b.path))
        (records.map (fun q =>
          ({ source := q.1, name := q.2.1, path := q.2.2.1, size := q.2.2.2,
             md5 := none } : FileInstance)))).map
        (fun r : FileInstance => (r.name, r.path, r.size))
    refine hperm.trans ?_
    rw [List.map_map]
    exact List.Perm.refl _
  · unfold DataSchema2_records
    have htotal : ∀ a b : FileInstance,
        decide (a.path ≤ b.path) = true ∨ decide (b.path ≤ a.path) = true := by
      intro a b
      rcases le_total a.path b.path with h | h
      · left; exact decide_eq_true h
      · right; exact decide_eq_true h
    have htrans : ∀ a b c : FileInstance,
        decide (a.path ≤ b.path) = true → decide (b.path ≤ c.path) = true →
        decide (a.path ≤ c.path) = true := by
      intro a b c ha hb
      simp only [decide_eq_true_eq] at ha hb ⊢
      exact le_trans ha hb
    have hsorted := sorted_insSort htotal htrans
      (DataSchema2_add_files [] records)
    refine List.Pairwise.map _ ?_ hsorted
    intro a b h
    simpa using h

/-- Claim C3: every duplicate group in the final reported output has at
least two members — GenerateReport drops singleton hash partitions, and a
Locate1 report entry always holds the probe plus at least one match. -/
theorem reported_groups_have_two_members :
    (∀ (dups : List ((String × String × Nat) × List (String × String)))
       (rec : (String × String × Nat) × List String),
       rec ∈ generateReportRecords dups → 2 ≤ rec.2.length) ∧
    (∀ (pm : List (String × List String)) (entry : String × List String),
       entry ∈ locate1Report pm → 2 ≤ entry.2.length + 1) := by
  constructor
  · intro dups rec hrec
    rcases List.mem_filterMap.mp hrec with ⟨q, _, hq⟩
    by_cases h : (q.2.map
        (fun loc => pathJoin (pathJoin loc.1 loc.2) q.1.1)).length < 2
    · rw [if_pos h] at hq
      exact absurd hq (by simp)
    · rw [if_neg h] at hq
      rcases Option.some.inj hq with rfl
      exact le_of_not_lt h
  · intro pm entry hentry
    have := (List.mem_filter.mp hentry).2
    have hne : entry.2 ≠ [] := by
      intro h
      rw [h] at this
      simp at this
    have : 1 ≤ entry.2.length := List.length_pos.mpr hne
    omega

/-- Claim C3 witness: a two-instance group survives into the report with
two members, and a probe with one match yields a two-member entry. -/
theorem reported_groups_have_two_members_witness :
    (("n", "h", 5), ["/s1/p1/n", "/s2/p2/n"]) ∈
        generateReportRecords
          [(("n", "h", 5), [("/s1", "p1"), ("/s2", "p2")])] ∧
    2 ≤ (["/s1/p1/n", "/s2/p2/n"] : List String).length ∧
    ("/probe/f", ["/m/f"]) ∈ locate1Report [("/probe/f", ["/m/f"])] ∧
    2 ≤ (["/m/f"] : List String).length + 1 :=
  ⟨by decide,
   reported_groups_have_two_members.1
     [(("n", "h", 5), [("/s1", "p1"), ("/s2", "p2")])]
     (("n", "h", 5), ["/s1/p1/n", "/s2/p2/n"]) (by decide),
   by decide,
   reported_groups_have_two_members.2
     [("/probe/f", ["/m/f"])] ("/probe/f", ["/m/f"]) (by decide)⟩

theorem mapGo_sizes_pos (root : String) (existing : List String) :
    ∀ (entries : List WalkEntry) (written buffer : List Rec4),
      (∀ r ∈ written, 1 ≤ r.2.2.2) → (∀ r ∈ buffer, 1 ≤ r.2.2.2) →
      ∀ r ∈ mapGo root existing entries written buffer, 1 ≤ r.2.2.2 := by
  intro entries
  induction entries with
  | nil =>
    intro written buffer hw hb r hr
    rcases List.mem_append.mp hr with h | h
    · exact hw r h
    · exact hb r h
  | cons e es ih =>
    intro written buffer hw hb r hr
    rw [mapGo] at hr
    by_cases h1 : (existing.contains e.relStr || !e.present) = true
    · rw [if_pos h1] at hr
      exact ih written buffer hw hb r hr
    · rw [if_neg h1] at hr
      by_cases h2 : (e.size == 0) = true
      · rw [if_pos h2] at hr
        exact ih written buffer hw hb r hr
      · rw [if_neg h2] at hr
        have hpos : 1 ≤ e.size := by
          have : e.size ≠ 0 := by
            intro h
            exact h2 (by simp [h])
          omega
        have hbuf2 : ∀ s ∈ buffer ++ [(root, e.name, e.parent, e.size)],
            1 ≤ s.2.2.2 := by
          intro s hs
          rcases List.mem_append.mp hs with h | h
          · exact hb s h
          · rcases List.mem_singleton.mp h with rfl
            exact hpos
        by_cases h3 : 100 < (buffer ++ [(root, e.name, e.parent, e.size)]).length
        · rw [if_pos h3] at hr
          refine ih _ [] ?_ (by simp) r hr
          intro s hs
          rcases List.mem_append.mp hs with h | h
          · exact hw s h
          · exact hbuf2 s h
        · rw [if_neg h3] at hr
          exact ih written _ hw hbuf2 r hr

/-- Claim C10: every record a mapping run adds to the store has size at
least 1 — files whose scanned size is 0 are skipped before buffering. -/
theorem map_never_adds_empty_files (root : String) (existing : List String)
    (entries : List WalkEntry) :
    ∀ r ∈ mapExecuteAdds root existing entries, 1 ≤ r.2.2.2 :=
  mapGo_sizes_pos root existing entries [] [] (by simp) (by simp)

/-- Claim C10 witness: a walk over one empty and one 5-byte file adds
only the 5-byte record, whose size is positive. -/
theorem map_never_adds_empty_files_witness :
    ("/r", "a.txt", "d", 5) ∈
        mapExecuteAdds "/r" []
          [⟨"z.txt", "d", "d/z.txt", true, 0⟩,
           ⟨"a.txt", "d", "d/a.txt", true, 5⟩] ∧
    1 ≤ (("/r", "a.txt", "d", 5) : Rec4).2.2.2 :=
  ⟨by decide,
   map_never_adds_empty_files "/r" []
     [⟨"z.txt", "d", "d/z.txt", true, 0⟩,
      ⟨"a.txt", "d", "d/a.txt", true, 5⟩]
     ("/r", "a.txt", "d", 5) (by decide)⟩

theorem takeWhile_append_all {p : α → Bool} {l₁ : List α} {x : α}
    (l₂ : List α) (h1 : ∀ a ∈ l₁, p a = true) (hx : p x = false) :
    (l₁ ++ x :: l₂).takeWhile p = l₁ := by
  induction l₁ with
  | nil => simp [List.takeWhile_cons, hx]
  | cons a l ih =>
    rw [List.cons_append, List.takeWhile_cons,
      if_pos (h1 a (List.mem_cons_self a l)),
      ih (fun b hb => h1 b (List.mem_cons_of_mem a hb))]

theorem dropWhile_append_all {p : α → Bool} {l₁ : List α} {x : α}
    (l₂ : List α) (h1 : ∀ a ∈ l₁, p a = true) (hx : p x = false) :
    (l₁ ++ x :: l₂).dropWhile p = x :: l₂ := by
  induction l₁ with
  | nil => simp [List.dropWhile_cons, hx]
  | cons a l ih =>
    rw [List.cons_append, List.dropWhile_cons,
      if_pos (h1 a (List.mem_cons_self a l)),
      ih (fun b hb => h1 b (List.mem_cons_of_mem a hb))]

/-- splitPath inverts pathJoin whenever the name is slash-free. -/
theorem splitPath_pathJoin (p n : String) (hn : ('/' : Char) ∉ n.data) :
    splitPath (pathJoin p n) = (p, n) := by
  have hdata : (pathJoin p n).data = p.data ++ '/' :: n.data := by
    unfold pathJoin
    rw [String.data_append, String.data_append]
    rw [List.append_assoc]
    rfl
  have hrev : (pathJoin p n).data.reverse =
      n.data.reverse ++ '/' :: p.data.reverse := by
    rw [hdata, List.reverse_append, List.reverse_cons, List.append_assoc]
    rfl
  have hall : ∀ a ∈ n.data.reverse, (!(a == '/')) = true := by
    intro a ha
    have : a ≠ '/' := fun h => hn (h ▸ List.mem_reverse.mp ha)
    simp [this]
  have hslash : (!(('/' : Char) == '/')) = false := by simp
  unfold splitPath
  rw [hrev, dropWhile_append_all _ hall hslash,
    takeWhile_append_all _ hall hslash]
  simp only [List.reverse_reverse]

/-- With well-formed parent/child links, the missing-file candidates are
exactly the joined (path, name) strings of the match_files rows whose
local file does not exist. -/
theorem mem_pruneCandidates (ex : String → Bool) (st : ReportStore)
    (hchild : ∀ (i : Nat) (r : MatchFile), st.match_files[i]? = some r →
      ∃ m ∈ st.mapped_files, m.matchId = i + 1 ∧ m.name = r.name)
    (hparent : ∀ m ∈ st.mapped_files, ∀ r : MatchFile,
      st.match_files[m.matchId - 1]? = some r → m.name = r.name)
    (f : String) :
    f ∈ pruneCandidates ex st ↔
      ∃ r ∈ st.match_files, f = pathJoin r.path r.name ∧ ex f = false := by
  unfold pruneCandidates
  rw [List.mem_filter, List.mem_map]
  constructor
  · rintro ⟨⟨rec, hrec, hrecf⟩, hexf⟩
    unfold duplicatesJoin at hrec
    rcases List.mem_filterMap.mp hrec with ⟨m, hm, hmrec⟩
    cases hr : st.match_files[m.matchId - 1]? with
    | none => rw [hr] at hmrec; exact absurd hmrec (by simp)
    | some r =>
      rw [hr] at hmrec
      rcases Option.some.inj hmrec with rfl
      refine ⟨r, List.getElem?_mem hr, ?_, ?_⟩
      · rw [← hrecf]
        simp only
        rw [hparent m hm r hr]
      · simpa using hexf
  · rintro ⟨r, hrmem, hf, hex⟩
    rcases List.mem_iff_getElem?.mp hrmem with ⟨i, hi⟩
    rcases hchild i r hi with ⟨m, hm, hmid, hmname⟩
    refine ⟨⟨{ filename := m.name,
               local_file := pathJoin r.path m.name,
               mapped_file := pathJoin m.path m.name }, ?_, ?_⟩, ?_⟩
    · unfold duplicatesJoin
      refine List.mem_filterMap.mpr ⟨m, hm, ?_⟩
      have hidx : st.match_files[m.matchId - 1]? = some r := by
        rw [hmid]
        exact hi
      rw [hidx]
    · show pathJoin r.path m.name = f
      rw [hmname, hf]
    · show (!(ex f)) = true
      rw [hex]
      rfl

/-- With ten or more joined rows the progress divisor is positive, so the
generator delivers every record and raises nothing. -/
theorem duplicatesRun_of_ten_le (st : ReportStore)
    (hbig : 10 ≤ (duplicatesJoin st).length) :
    duplicatesRun st = (duplicatesJoin st, none) := by
  unfold duplicatesRun
  cases hrows : duplicatesJoin st with
  | nil => rfl
  | cons r rs =>
    rw [hrows] at hbig
    have hne : (r :: rs).length / 10 ≠ 0 := by
      have h1 : 1 ≤ (r :: rs).length / 10 :=
        (Nat.one_le_div_iff (by omega)).mpr hbig
      omega
    show (if (r :: rs).length / 10 = 0 then ([r], some Err.zeroDivision)
          else (r :: rs, none)) = (r :: rs, none)
    rw [if_neg hne]

/-- For stores whose duplicates() join has at least ten rows — so the
progress logging does not divide by zero — the prune workflow keeps
exactly the match_files rows whose local file still exists and reports
every missing row's (path, name) split in the pruned set.  (Support for
the C9 record: the claimed behaviour does hold once the crash in
duplicates() is out of the way.) -/
theorem prune_join_ge_ten_removes_exactly_missing
    (ex : String → Bool) (st : ReportStore)
    (hname : ∀ r ∈ st.match_files, ('/' : Char) ∉ r.name.data)
    (hchild : ∀ (i : Nat) (r : MatchFile), st.match_files[i]? = some r →
      ∃ m ∈ st.mapped_files, m.matchId = i + 1 ∧ m.name = r.name)
    (hparent : ∀ m ∈ st.mapped_files, ∀ r : MatchFile,
      st.match_files[m.matchId - 1]? = some r → m.name = r.name)
    (hbig : 10 ≤ (duplicatesJoin st).length) :
    ∃ pruned, prune ex st = Except.ok
        (st.match_files.filter (fun r => ex (pathJoin r.path r.name)),
         pruned) ∧
      ∀ r ∈ st.match_files, ex (pathJoin r.path r.name) = false →
        (r.path, r.name) ∈ pruned := by
  have hmemC := mem_pruneCandidates ex st hchild hparent
  have hred : prune ex st =
      if (pruneCandidates ex st).isEmpty then Except.ok (st.match_files, [])
      else Except.ok (remove_local_files st.match_files
        (pruneCandidates ex st)) := by
    unfold prune
    rw [duplicatesRun_of_ten_le st hbig]
    rfl
  by_cases hempty : (pruneCandidates ex st).isEmpty = true
  · have hnil : pruneCandidates ex st = [] := List.isEmpty_iff.mp hempty
    have hallex : ∀ r ∈ st.match_files, ex (pathJoin r.path r.name) = true := by
      intro r hr
      by_contra hfalse
      have : pathJoin r.path r.name ∈ pruneCandidates ex st :=
        (hmemC (pathJoin r.path r.name)).mpr
          ⟨r, hr, rfl, Bool.eq_false_iff.mpr hfalse⟩
      rw [hnil] at this
      exact absurd this (List.not_mem_nil _)
    refine ⟨[], ?_, ?_⟩
    · rw [hred, if_pos hempty, List.filter_eq_self.mpr hallex]
    · intro r hr hex
      rw [hallex r hr] at hex
      exact absurd hex (by simp)
  · have hpairs : ∀ r ∈ st.match_files,
        (((pruneCandidates ex st).map splitPath).contains (r.path, r.name)
            = true) ↔
          ex (pathJoin r.path r.name) = false := by
      intro r hr
      rw [List.elem_iff, List.mem_map]
      constructor
      · rintro ⟨f, hf, hsplit⟩
        rcases (hmemC f).mp hf with ⟨s, hs, hfs, hexs⟩
        rw [hfs] at hexs
        rw [hfs] at hsplit
        rw [splitPath_pathJoin s.path s.name (hname s hs)] at hsplit
        rcases Prod.mk.injEq .. ▸ hsplit with ⟨hp, hn2⟩
        rw [← hp, ← hn2]
        exact hexs
      · intro hex
        refine ⟨pathJoin r.path r.name, ?_,
          splitPath_pathJoin r.path r.name (hname r hr)⟩
        exact (hmemC (pathJoin r.path r.name)).mpr ⟨r, hr, rfl, hex⟩
    have hrlf : remove_local_files st.match_files (pruneCandidates ex st) =
        (st.match_files.filter (fun r =>
           !(((pruneCandidates ex st).map splitPath).contains
             (r.path, r.name))),
         (pruneCandidates ex st).map splitPath) := rfl
    have hfilter : st.match_files.filter (fun r =>
        !(((pruneCandidates ex st).map splitPath).contains
          (r.path, r.name))) =
        st.match_files.filter (fun r => ex (pathJoin r.path r.name)) := by
      refine List.filter_congr ?_
      intro r hr
      cases hex : ex (pathJoin r.path r.name) with
      | false =>
        have := (hpairs r hr).mpr hex
        rw [this]
        rfl
      | true =>
        cases hcont : ((pruneCandidates ex st).map splitPath).contains
            (r.path, r.name) with
        | false => rfl
        | true =>
          have := (hpairs r hr).mp hcont
          rw [this] at hex
          exact absurd hex (by simp)
    refine ⟨(pruneCandidates ex st).map splitPath, ?_, ?_⟩
    · rw [hred, if_neg hempty, hrlf, hfilter]
    · intro r hr hex
      exact List.elem_iff.mp ((hpairs r hr).mpr hex)

/-- Claim C9 (the code's divergence at the failing input): stC9 contains
a match_files entry whose local file /d/a.txt no longer exists, yet the
prune workflow does not delete it — the duplicates() join has two rows,
so int(number_of_matches/10) is zero and the progress check raises
ZeroDivisionError when the second record is requested; _prune has no
handler, remove_local_files is never called, and the store is left
unchanged. -/
theorem prune_small_store_zero_division :
    (⟨"/d", "a.txt", 3⟩ : MatchFile) ∈ stC9.match_files ∧
    exC9 (pathJoin "/d" "a.txt") = false ∧
    prune exC9 stC9 = Except.error Err.zeroDivision :=
  ⟨by decide, by rfl, by rfl⟩

end Cronenberg
